import Mathlib

namespace Image2ascii

/-!  Shallow embedding of image2ascii/geometry.py and the matching-engine
parts of image2ascii/core.py.  Python floats are modelled by exact rationals,
Python ints by `Int` (or `Nat` where the source value is manifestly
non-negative), and fallible code (assertions, division by zero, `max` over an
empty sequence) by `Option`/`Except`. -/

/-- geometry.py, class `Matrix`: a `width` × `height` grid stored as a list of
rows (`data`), together with the `empty_value` marking an empty cell. -/
structure Matrix (α : Type) where
  width : ℕ
  height : ℕ
  empty_value : α
  data : List (List α)

/-- Well-formedness as established by `Matrix.__init__` (which truncates or
pads the flat input): `data` holds exactly `height` rows of exactly `width`
entries each. -/
def Matrix.WF {α : Type} (m : Matrix α) : Prop :=
  m.data.length = m.height ∧ ∀ row ∈ m.data, row.length = m.width

instance {α : Type} [DecidableEq α] (m : Matrix α) : Decidable m.WF := by
  unfold Matrix.WF; infer_instance

/-- geometry.py, `Matrix.size`: `width * height`. -/
def Matrix.size {α : Type} (m : Matrix α) : ℕ := m.width * m.height

/-- geometry.py, `Matrix.flatten`: all values, row by row. -/
def Matrix.flatten {α : Type} (m : Matrix α) : List α := m.data.flatten

/-- Helper for `Matrix.non_empty_points`: the points contributed by row `y`
(0-based) whose cells start at column index `x` (0-based): one point
`(x + 1, y + 1)` for every cell value that differs from `e`.  Mirrors the
inner `for x, value in enumerate(row) if value != self.empty_value` loop. -/
def rowPoints {α : Type} [DecidableEq α] (e : α) (y : ℕ) : ℕ → List α → List (ℕ × ℕ)
  | _, [] => []
  | x, v :: rest =>
    (if v ≠ e then [(x + 1, y + 1)] else []) ++ rowPoints e y (x + 1) rest

/-- Helper for `Matrix.non_empty_points`: the outer
`for y, row in enumerate(self.data)` loop, starting at row index `y`. -/
def gridPoints {α : Type} [DecidableEq α] (e : α) : ℕ → List (List α) → List (ℕ × ℕ)
  | _, [] => []
  | y, row :: rest => rowPoints e y 0 row ++ gridPoints e (y + 1) rest

/-- geometry.py, `Matrix.non_empty_points`: 1-indexed `(x + 1, y + 1)`
coordinates of every cell whose value differs from `empty_value`, in row-major
order. -/
def Matrix.non_empty_points {α : Type} [DecidableEq α] (m : Matrix α) : List (ℕ × ℕ) :=
  gridPoints m.empty_value 0 m.data

/-- geometry.py, `FilledShape.likeness`: the fraction of the matrix's members
that are `True`.  The division by `size` raises `ZeroDivisionError` on an
empty matrix ("Let's just let division by 0 raise its exception"), modelled
as `none`. -/
def FilledShape.likeness (m : Matrix Bool) : Option ℚ :=
  if m.size = 0 then none
  else some (((m.flatten.filter (fun v => v)).length : ℚ) / (m.size : ℚ))

/-- geometry.py, `EmptyShape.likeness`: the fraction of the matrix's members
that are `False`; division by zero modelled as `none`. -/
def EmptyShape.likeness (m : Matrix Bool) : Option ℚ :=
  if m.size = 0 then none
  else some (((m.flatten.filter (fun v => !v)).length : ℚ) / (m.size : ℚ))

/-- geometry.py, class `PolygonShape`.  The matplotlib `Path` built from the
scaled vertices is external to this repository, so its point-membership test
`self.path.contains_points` is kept as an abstract boolean predicate
`contains` on (1-indexed) grid points — the same single predicate is used
both at construction time (for `filled_size`) and by `likeness`, exactly as
the one `self.path` object is in the source. -/
structure PolygonShape where
  char : String
  width : ℕ
  height : ℕ
  points : List (ℚ × ℚ)
  contains : ℕ × ℕ → Bool

/-- geometry.py, `PolygonShape.__init__`:
`box_points = [(x + 1, y + 1) for x in range(width) for y in range(height)]`
(x outer, y inner). -/
def PolygonShape.box_points (s : PolygonShape) : List (ℕ × ℕ) :=
  ((List.range s.width).map (fun x =>
    (List.range s.height).map (fun y => (x + 1, y + 1)))).flatten

/-- geometry.py, `PolygonShape.__init__`: number of points enclosed by the
containing box. -/
def PolygonShape.box_size (s : PolygonShape) : ℕ := s.width * s.height

/-- geometry.py, `PolygonShape.__init__`: number of box grid points enclosed
by the shape (`len([v for v in self.path.contains_points(box_points) if v])`). -/
def PolygonShape.filled_size (s : PolygonShape) : ℕ :=
  (s.box_points.filter s.contains).length

/-- geometry.py, `PolygonShape.__init__`: number of box grid points NOT
enclosed by the shape (Python int subtraction). -/
def PolygonShape.unfilled_size (s : PolygonShape) : ℤ :=
  (s.box_size : ℤ) - (s.filled_size : ℤ)

/-- geometry.py, `PolygonShape.likeness`.  The two leading dimension
assertions are modelled by `none`, as is the final division when
`box_size = 0` (Python would raise `ZeroDivisionError`).  The
`if points: ... else: filled_points_within = filled_points_outside = 0`
branch (because `contains_points()` cannot handle an empty list) is kept. -/
def PolygonShape.likeness (s : PolygonShape) (m : Matrix Bool) : Option ℚ :=
  if s.width ≠ m.width then none
  else if s.height ≠ m.height then none
  else
    let pts := m.non_empty_points
    let filled_points_within : ℤ :=
      if pts.isEmpty then 0 else ((pts.filter s.contains).length : ℤ)
    let filled_points_outside : ℤ :=
      if pts.isEmpty then 0 else (pts.length : ℤ) - filled_points_within
    let unfilled_points_outside : ℤ := s.unfilled_size - filled_points_outside
    let conforming_points : ℤ := filled_points_within + unfilled_points_outside
    if s.box_size = 0 then none
    else some ((conforming_points : ℚ) / (s.box_size : ℚ))

/-- geometry.py's class hierarchy `BaseShape` / `EmptyShape` / `FilledShape`
/ `PolygonShape`, as a sum type; `EmptyShape` and `FilledShape` carry only
their display character (their `__init__` is `BaseShape.__init__(self, char)`). -/
inductive Shape where
  | emptyShape (char : String)
  | filledShape (char : String)
  | polygonShape (s : PolygonShape)

/-- Dynamic dispatch of `likeness` over the shape hierarchy. -/
def Shape.likeness : Shape → Matrix Bool → Option ℚ
  | .emptyShape _, m => EmptyShape.likeness m
  | .filledShape _, m => FilledShape.likeness m
  | .polygonShape s, m => s.likeness m

/-- Python 3 `round()` (round half to even) on an exact rational. -/
def pyround (q : ℚ) : ℤ :=
  let f := ⌊q⌋
  let r := q - (f : ℚ)
  if r < 1/2 then f
  else if 1/2 < r then f + 1
  else if Even f then f else f + 1

/-- Python `int()` on a float value (truncation towards zero), on an exact
rational. -/
def pytrunc (q : ℚ) : ℤ := if q < 0 then -⌊-q⌋ else ⌊q⌋

/-- IEEE-754 binary64 ("float64") rounding of an exact rational: the
significand `q / 2 ^ (Int.log 2 q - 52)` lies in `[2^52, 2^53)` and is
rounded to the nearest integer with ties to even (which is `pyround`).
Sub-normals and overflow cannot occur in the brightness computation's range
and are not modelled. -/
def float64_round (q : ℚ) : ℚ :=
  if q = 0 then 0
  else if 0 < q then
    (pyround (q / (2 : ℚ) ^ (Int.log 2 q - 52)) : ℚ) * (2 : ℚ) ^ (Int.log 2 q - 52)
  else
    -((pyround (-q / (2 : ℚ) ^ (Int.log 2 (-q) - 52)) : ℚ) *
      (2 : ℚ) ^ (Int.log 2 (-q) - 52))

/-- core.py, class `Image2ASCII`: the configuration fields (with the class
defaults) plus the memoized `output`.  The two class-valued settings
(`formatter_class`, `color_converter_class`) and the cached `Output` object
carry no arithmetic content relevant to any claim, so they are modelled by
identifiers (`ℕ`); `ANSIFormatter`, the default formatter class, is
identifier 0. -/
structure Image2ASCII where
  ascii_max_height : Option ℤ := none
  ascii_ratio : ℚ := 2
  ascii_width : ℤ := 80
  brightness : ℚ := 1
  color : Bool := false
  color_balance : ℚ := 1
  color_converter_class : Option ℕ := none
  contrast : ℚ := 1
  crop : Bool := false
  fill_all : Bool := false
  formatter_class : ℕ := 0
  invert : Bool := false
  negative : Bool := false
  min_likeness : ℚ := 9/10
  quality : ℤ := 5
  output : Option ℕ := none
deriving DecidableEq

/-- core.py, `Image2ASCII.reset`: drop the memoized output. -/
def reset (st : Image2ASCII) : Image2ASCII := { st with output := none }

/-- The outcome of core.py's `Image2ASCII.do_resize`: the final image
dimensions, whether `image.resize(...)` was invoked, and whether the
height-padding `image.crop(box)` was invoked. -/
structure ResizeResult where
  width : ℤ
  height : ℤ
  resized : Bool
  padded : Bool
deriving DecidableEq

/-- core.py, `Image2ASCII.do_resize`, first phase: the width budget
`end_width = min(image.width, ascii_width * quality)` and, when
`ascii_max_height` is set and the projected output height exceeds the cap,
the shrink `end_width = round(image.width * (max_height / image.height) /
ascii_ratio)`. -/
def plan_end_width (c : Image2ASCII) (w h : ℤ) : ℤ :=
  let end_width := min w (c.ascii_width * c.quality)
  match c.ascii_max_height with
  | none => end_width
  | some amh =>
    let max_height := pyround ((amh : ℚ) * (c.quality : ℚ) * c.ascii_ratio)
    if (h : ℚ) * c.ascii_ratio * ((end_width : ℚ) / (w : ℚ)) > (max_height : ℚ) then
      pyround ((w : ℚ) * ((max_height : ℚ) / (h : ℚ)) / c.ascii_ratio)
    else end_width

/-- core.py, `Image2ASCII.do_resize`, second phase: "Round to the nearest
multiple of self.ascii_width if needed" — shrink when above `ascii_width`
and within 25% of the multiple below, otherwise grow. -/
def round_to_multiple (aw ew : ℤ) : ℤ :=
  if ew % aw ≠ 0 then
    if ew > aw ∧ ((ew % aw : ℤ) : ℚ) < (aw : ℚ) * (1/4) then
      ew - ew % aw
    else
      ew + (aw - ew % aw)
  else ew

/-- core.py, `Image2ASCII.do_resize`, third phase: call `image.resize` iff
the width changes; the resized height is
`round((end_width / image.width) * image.height)`. -/
def resized_dims (c : Image2ASCII) (w h : ℤ) : ℤ × ℤ :=
  let end_width := round_to_multiple c.ascii_width (plan_end_width c w h)
  if w ≠ end_width then
    (end_width, pyround (((end_width : ℚ) / (w : ℚ)) * (h : ℚ)))
  else (w, h)

/-- core.py, `Image2ASCII.do_resize`, fourth phase: "If image height is not
an exact multiple of section heights, expand it vertically" via a crop box
reaching above/below the image; returns the resulting height and whether the
padding crop was applied.  (`image.crop(box)` yields a
`(lower - upper)`-pixel-high image.) -/
def pad_height (h2 section_height : ℤ) : ℤ × Bool :=
  if h2 % section_height ≠ 0 then
    let expand_height := section_height - h2 % section_height
    let upper := -(pytrunc ((expand_height : ℚ) / 2) + expand_height % 2)
    let lower := h2 + pytrunc ((expand_height : ℚ) / 2)
    (lower - upper, true)
  else (h2, false)

/-- core.py, `Image2ASCII.get_section_size`, on an image of width `w`; the
same `int(image.width / self.ascii_width) or 1` /
`int(section_width * self.ascii_ratio) or 1` formulas are computed inline by
`do_resize`. -/
def get_section_size (c : Image2ASCII) (w : ℤ) : ℤ × ℤ :=
  let section_width :=
    let s := pytrunc ((w : ℚ) / (c.ascii_width : ℚ))
    if s = 0 then 1 else s
  (section_width,
    let s := pytrunc ((section_width : ℚ) * c.ascii_ratio)
    if s = 0 then 1 else s)

/-- core.py, `Image2ASCII.do_resize`, assembled from its four phases: final
dimensions plus whether a resize and whether a padding crop happened. -/
def do_resize (c : Image2ASCII) (w h : ℤ) : ResizeResult :=
  let end_width := round_to_multiple c.ascii_width (plan_end_width c w h)
  let dims := resized_dims c w h
  let s := get_section_size c dims.1
  let ph := pad_height dims.2 s.2
  { width := dims.1, height := ph.1, resized := decide (w ≠ end_width),
    padded := ph.2 }

/-- The interface through which core.py's `get_char` consumes the members of
`self.shapes`: a display character plus the likeness value computed for a
given list of (1-indexed) lit coordinates.  `likeness` is kept as a function
since `get_char` evaluates it afresh for each shape it reaches. -/
structure CoreShape where
  char : String
  likeness : List (ℤ × ℤ) → ℚ

/-- Python's `max(chars, key=lambda c: c[1])[0]`: the first element with the
maximal key wins (later elements replace the current maximum only on strict
`>`); `max` of an empty sequence raises `ValueError`, modelled as `none`. -/
def pymax_snd : List (String × ℚ) → Option String
  | [] => none
  | c :: cs => some ((cs.foldl (fun best x => if x.2 > best.2 then x else best) c).1)

/-- core.py, `Image2ASCII.get_char`, inner loop: `chars` is the accumulated
list of `(char, likeness)` pairs for the shapes already scanned. -/
def get_char_go (min_likeness : ℚ) (coords : List (ℤ × ℤ)) :
    List CoreShape → List (String × ℚ) → Option String
  | [], chars => pymax_snd chars
  | s :: rest, chars =>
    if s.likeness coords > min_likeness then some s.char
    else get_char_go min_likeness coords rest (chars ++ [(s.char, s.likeness coords)])

/-- core.py, `Image2ASCII.get_char`: scan `shapes` (the catalog, in order)
with early exit on `likeness > min_likeness`, falling back to the maximum
observed likeness. -/
def get_char (c : Image2ASCII) (shapes : List CoreShape)
    (nonzero_coords : List (ℤ × ℤ)) : Option String :=
  get_char_go c.min_likeness nonzero_coords shapes []

/-- A loaded PIL image as core.py's `get_matrix` sees it: dimensions, mode,
and `image.getdata()` as a row-major list of RGBA byte quadruples. -/
structure PILImage where
  width : ℕ
  height : ℕ
  mode : String
  data : List (ℕ × ℕ × ℕ × ℕ)

/-- Follows the spec's words (the refinement comparison target for C3): the
perceived brightness `0.299·R + 0.587·G + 0.114·B` as an exact real-number
expression.  The source does NOT compute this: numpy evaluates the sum in
float64 (see `perceived_brightness`), and at the 46 of 111 RGB triples with
`299·R + 587·G + 114·B = 128000` where the float64 sum lands just below 128
the two sides of the `0x80` threshold disagree. -/
def spec_perceived_brightness (r g b : ℕ) : ℚ :=
  (r : ℚ) * (0.299 : ℚ) + (g : ℚ) * (0.587 : ℚ) + (b : ℚ) * (0.114 : ℚ)

/-- core.py, `get_matrix`: perceived brightness
`arr[:, R] * 0.299 + arr[:, G] * 0.587 + arr[:, B] * 0.114` exactly as numpy
evaluates it elementwise in float64: the three literals are the binary64
values nearest 0.299 / 0.587 / 0.114, the `uint64 → float64` conversion of a
byte is exact, and each product and each (left-associated) addition is
rounded to binary64. -/
def perceived_brightness (r g b : ℕ) : ℚ :=
  float64_round (float64_round (float64_round ((r : ℚ) * float64_round (0.299 : ℚ)) +
    float64_round ((g : ℚ) * float64_round (0.587 : ℚ))) +
    float64_round ((b : ℚ) * float64_round (0.114 : ℚ)))

/-- core.py, `get_matrix`: the visibility (`Vi`) value of one RGBA pixel,
depending on `fill_all` and `invert`; the brightness comparison against
`0x80` happens on the float64 value, as in the source. -/
def pixel_visibility (fill_all invert : Bool) (p : ℕ × ℕ × ℕ × ℕ) : Bool :=
  match p with
  | (r, g, b, a) =>
    if fill_all then decide (a ≥ 0x80)
    else if !invert then
      decide (a ≥ 0x80) && decide (perceived_brightness r g b ≥ (0x80 : ℚ))
    else
      decide (a ≥ 0x80) && decide (perceived_brightness r g b < (0x80 : ℚ))

/-- The numpy array returned by `get_matrix`, of shape
`(height, width, 5)`: rows of `(R, G, B, A, Vi)` quintuples (`Vi` stored as
0/1, as numpy casts the boolean into the `uint64` array). -/
structure PixelMatrix where
  height : ℕ
  width : ℕ
  rows : List (List (ℕ × ℕ × ℕ × ℕ × ℕ))
deriving DecidableEq

/-- core.py, `Image2ASCII.get_matrix`.  A zero-sized image short-circuits to
an empty `(0, 0, 5)` array before the mode assertion; the assertion and the
numpy length mismatch (impossible for a real PIL image, where
`len(getdata()) = width * height`) are modelled as errors. -/
def get_matrix (c : Image2ASCII) (img : PILImage) : Except String PixelMatrix :=
  if img.width = 0 ∨ img.height = 0 then .ok ⟨0, 0, []⟩
  else if img.mode ≠ "RGBA" then .error "Image mode must be RGBA"
  else if img.data.length ≠ img.width * img.height then .error "cannot reshape"
  else .ok ⟨img.height, img.width,
    (List.range img.height).map (fun y =>
      (List.range img.width).map (fun x =>
        let p := img.data.getD (y * img.width + x) (0, 0, 0, 0)
        (p.1, p.2.1, p.2.2.1, p.2.2.2,
          if pixel_visibility c.fill_all c.invert p then 1 else 0)))⟩

/-- geometry.py's `CropBox` namedtuple (as used by core.py's
`get_crop_box`). -/
structure CropBox where
  left : ℕ
  upper : ℕ
  right : ℕ
  lower : ℕ
deriving DecidableEq

/-- `matrix[:, x, Vi].any()`: some pixel in column `x` is visible. -/
def col_any_visible (M : PixelMatrix) (x : ℕ) : Bool :=
  M.rows.any (fun row => decide ((row.getD x (0, 0, 0, 0, 0)).2.2.2.2 ≠ 0))

/-- `matrix[y, :, Vi].any()`: some pixel in row `y` is visible. -/
def row_any_visible (M : PixelMatrix) (y : ℕ) : Bool :=
  (M.rows.getD y []).any (fun q => decide (q.2.2.2.2 ≠ 0))

/-- A Python `for v in l: if p(v): break` loop whose variable is read after
the loop: the first element satisfying `p`, or — when the loop runs to
completion — the last element of `l`; `none` when `l` is empty (reading the
variable would raise `NameError`). -/
def loopFirst (p : ℕ → Bool) (l : List ℕ) : Option ℕ :=
  match l.find? p with
  | some v => some v
  | none => l.getLast?

/-- core.py, `Image2ASCII.get_crop_box`: four `for`/`break` scans for the
first/last visible column/row.  The descending ranges `range(width, left, -1)`
and `range(height, upper, -1)` are the reversed `List.range'` intervals. -/
def get_crop_box (M : PixelMatrix) : Option CropBox :=
  let height := M.height
  let width := M.width
  match loopFirst (col_any_visible M) (List.range width) with
  | none => none
  | some left =>
    match loopFirst (row_any_visible M) (List.range height) with
    | none => none
    | some upper =>
      match loopFirst (fun r => col_any_visible M (r - 1))
          ((List.range' (left + 1) (width - left)).reverse) with
      | none => none
      | some right =>
        match loopFirst (fun r => row_any_visible M (r - 1))
            ((List.range' (upper + 1) (height - upper)).reverse) with
        | none => none
        | some lower => some ⟨left, upper, right, lower⟩

/-- The fifteen configuration settings of core.py's `Image2ASCII`, each with
the value being assigned through its property setter. -/
inductive Setting where
  | ascii_max_height (v : Option ℤ)
  | ascii_ratio (v : ℚ)
  | ascii_width (v : ℤ)
  | brightness (v : ℚ)
  | color (v : Bool)
  | color_balance (v : ℚ)
  | color_converter_class (v : Option ℕ)
  | contrast (v : ℚ)
  | crop (v : Bool)
  | fill_all (v : Bool)
  | formatter_class (v : ℕ)
  | invert (v : Bool)
  | negative (v : Bool)
  | min_likeness (v : ℚ)
  | quality (v : ℤ)

/-- core.py, the property setters (lines 60–208): each compares the new value
with the stored one and, only if they differ, stores it and calls
`self.reset()`. -/
def applySetting (st : Image2ASCII) : Setting → Image2ASCII
  | .ascii_max_height v =>
    if v ≠ st.ascii_max_height then reset { st with ascii_max_height := v } else st
  | .ascii_ratio v =>
    if v ≠ st.ascii_ratio then reset { st with ascii_ratio := v } else st
  | .ascii_width v =>
    if v ≠ st.ascii_width then reset { st with ascii_width := v } else st
  | .brightness v =>
    if v ≠ st.brightness then reset { st with brightness := v } else st
  | .color v =>
    if v ≠ st.color then reset { st with color := v } else st
  | .color_balance v =>
    if v ≠ st.color_balance then reset { st with color_balance := v } else st
  | .color_converter_class v =>
    if v ≠ st.color_converter_class then
      reset { st with color_converter_class := v } else st
  | .contrast v =>
    if v ≠ st.contrast then reset { st with contrast := v } else st
  | .crop v =>
    if v ≠ st.crop then reset { st with crop := v } else st
  | .fill_all v =>
    if v ≠ st.fill_all then reset { st with fill_all := v } else st
  | .formatter_class v =>
    if v ≠ st.formatter_class then reset { st with formatter_class := v } else st
  | .invert v =>
    if v ≠ st.invert then reset { st with invert := v } else st
  | .negative v =>
    if v ≠ st.negative then reset { st with negative := v } else st
  | .min_likeness v =>
    if v ≠ st.min_likeness then reset { st with min_likeness := v } else st
  | .quality v =>
    if v ≠ st.quality then reset { st with quality := v } else st

/-- Whether an assignment through a setter actually changes the stored
value. -/
def settingChanges (st : Image2ASCII) : Setting → Prop
  | .ascii_max_height v => v ≠ st.ascii_max_height
  | .ascii_ratio v => v ≠ st.ascii_ratio
  | .ascii_width v => v ≠ st.ascii_width
  | .brightness v => v ≠ st.brightness
  | .color v => v ≠ st.color
  | .color_balance v => v ≠ st.color_balance
  | .color_converter_class v => v ≠ st.color_converter_class
  | .contrast v => v ≠ st.contrast
  | .crop v => v ≠ st.crop
  | .fill_all v => v ≠ st.fill_all
  | .formatter_class v => v ≠ st.formatter_class
  | .invert v => v ≠ st.invert
  | .negative v => v ≠ st.negative
  | .min_likeness v => v ≠ st.min_likeness
  | .quality v => v ≠ st.quality

/-- core.py, `Image2ASCII.render`, memoization skeleton: when `self.output`
is `None`, the output is computed from the current image and configuration
(the whole per-section pipeline, abstracted as `compute`) and cached;
otherwise the cached value is reused.  The returned value is the formatter's
rendering of the output, represented by the output identifier itself. -/
def render (compute : Image2ASCII → ℕ) (st : Image2ASCII) : ℕ × Image2ASCII :=
  match st.output with
  | some o => (o, st)
  | none => (compute st, { st with output := some (compute st) })

/-- Concrete polygon glyph used by the C1 witness: section size 2×1, with a
containment predicate holding exactly on the left grid column. -/
def c1Shape : PolygonShape :=
  { char := "o", width := 2, height := 1, points := [],
    contains := fun p => decide (p.1 ≤ 1) }

/-- Concrete 2×1 boolean matrix used by the C1 witness (left cell lit). -/
def c1Matrix : Matrix Bool :=
  { width := 2, height := 1, empty_value := false, data := [[true, false]] }

/-- Concrete glyph used by the C6 witness: a 1×1 polygon containing its only
grid point. -/
def c6Shape : Shape :=
  Shape.polygonShape
    { char := "d", width := 1, height := 1, points := [], contains := fun _ => true }

/-- Concrete 1×1 all-lit boolean matrix used by the C6 witness. -/
def c6Matrix : Matrix Bool :=
  { width := 1, height := 1, empty_value := false, data := [[true]] }

/-- Configuration used by the C4 witness. -/
def c4Config : Image2ASCII :=
  { ascii_width := 2, quality := 3, ascii_ratio := 2, ascii_max_height := some 4 }

/-- Configuration exhibiting the failure of C5 as stated
(`ascii_max_height` set). -/
def c5Config : Image2ASCII :=
  { ascii_width := 1, quality := 5, ascii_ratio := 1, ascii_max_height := some 2 }

/-- Configuration used by the C5 witness (no `ascii_max_height`). -/
def c5WitnessConfig : Image2ASCII :=
  { ascii_width := 2, quality := 1, ascii_ratio := 2 }

/-- First shape list for the C2 witness: empty glyph fails the threshold,
filled glyph exceeds it, a later glyph is irrelevant. -/
def c2Shapes : List CoreShape :=
  [{ char := " ", likeness := fun _ => 0 }, { char := "$", likeness := fun _ => 1 },
    { char := "o", likeness := fun _ => 1/2 }]

/-- Second shape list for the C2 witness: a likeness tie below the
threshold, resolved in favour of the earlier glyph. -/
def c2TieShapes : List CoreShape :=
  [{ char := " ", likeness := fun _ => 1/2 }, { char := "$", likeness := fun _ => 1/2 }]

/-- Entry `(y, x)` of a `get_matrix` result (`matrix[y, x]` in numpy). -/
def matrixEntry (M : PixelMatrix) (y x : ℕ) : ℕ × ℕ × ℕ × ℕ × ℕ :=
  (M.rows.getD y []).getD x (0, 0, 0, 0, 0)

/-- Concrete image and matrix for the C3 witness: a single half-transparent
dark pixel. -/
def c3Image : PILImage := { width := 1, height := 1, mode := "RGBA", data := [(10, 20, 30, 40)] }

/-- State with a populated output cache and all-default settings, on which
the C7 counterexample assigns an unchanged value. -/
def c7State : Image2ASCII := { output := some 0 }

/-- State with a populated output cache for the C7 witness. -/
def c7CachedState : Image2ASCII := { output := some 5 }

/-- Configuration of the C8 end-to-end scenario: `ascii_width = 1`,
`quality = 1`, `ascii_ratio = 1`, `min_likeness = 0.9`, `fill_all = False`. -/
def c8Config : Image2ASCII :=
  { ascii_width := 1, quality := 1, ascii_ratio := 1, min_likeness := 9/10,
    fill_all := false }

/-- The working image of the C8 scenario after `do_resize`: nearest-neighbour
resampling of the fully opaque white 2×2 image down to 1×1 leaves a single
fully opaque white pixel. -/
def c8Resized : PILImage :=
  { width := 1, height := 1, mode := "RGBA", data := [(255, 255, 255, 255)] }

lemma mem_rowPoints {α : Type} [DecidableEq α] {e : α} {y : ℕ} {p : ℕ × ℕ} :
    ∀ {x : ℕ} {l : List α}, p ∈ rowPoints e y x l →
      p.2 = y + 1 ∧ x + 1 ≤ p.1 ∧ p.1 ≤ x + l.length := by
  intro x l
  induction l generalizing x with
  | nil => intro h; simp [rowPoints] at h
  | cons v rest ih =>
    intro h
    simp only [rowPoints, List.mem_append] at h
    rcases h with h | h
    · split at h
      · simp only [List.mem_singleton] at h
        subst h
        simp
      · simp at h
    · have := ih h
      refine ⟨this.1, by omega, ?_⟩
      have := this.2.2
      simp only [List.length_cons]
      omega

lemma rowPoints_pairwise {α : Type} [DecidableEq α] {e : α} {y : ℕ} :
    ∀ {x : ℕ} {l : List α}, (rowPoints e y x l).Pairwise (fun a b => a.1 < b.1) := by
  intro x l
  induction l generalizing x with
  | nil => simp [rowPoints]
  | cons v rest ih =>
    simp only [rowPoints]
    rcases Decidable.em (v ≠ e) with hv | hv
    · rw [if_pos hv]
      rw [List.pairwise_append]
      refine ⟨List.pairwise_singleton _ _, ih, ?_⟩
      intro a ha b hb
      simp only [List.mem_singleton] at ha
      subst ha
      have := (mem_rowPoints hb).2.1
      simp
      omega
    · rw [if_neg hv]
      simpa using ih

lemma rowPoints_nodup {α : Type} [DecidableEq α] {e : α} {y x : ℕ} {l : List α} :
    (rowPoints e y x l).Nodup :=
  rowPoints_pairwise.imp (fun h => by
    intro heq
    subst heq
    exact lt_irrefl _ h)

lemma mem_gridPoints_snd {α : Type} [DecidableEq α] {e : α} {p : ℕ × ℕ} :
    ∀ {y : ℕ} {rows : List (List α)}, p ∈ gridPoints e y rows →
      y + 1 ≤ p.2 ∧ p.2 ≤ y + rows.length := by
  intro y rows
  induction rows generalizing y with
  | nil => intro h; simp [gridPoints] at h
  | cons row rest ih =>
    intro h
    simp only [gridPoints, List.mem_append] at h
    rcases h with h | h
    · have hm := (mem_rowPoints h).1
      simp only [List.length_cons]
      omega
    · have := ih h
      simp only [List.length_cons]
      omega

lemma mem_gridPoints_fst {α : Type} [DecidableEq α] {e : α} {p : ℕ × ℕ} {w : ℕ} :
    ∀ {y : ℕ} {rows : List (List α)}, (∀ row ∈ rows, row.length = w) →
      p ∈ gridPoints e y rows → 1 ≤ p.1 ∧ p.1 ≤ w := by
  intro y rows
  induction rows generalizing y with
  | nil => intro _ h; simp [gridPoints] at h
  | cons row rest ih =>
    intro hW h
    simp only [gridPoints, List.mem_append] at h
    rcases h with h | h
    · have hm := mem_rowPoints h
      have hr : row.length = w := hW row (by simp)
      omega
    · exact ih (fun r hr => hW r (by simp [hr])) h

lemma gridPoints_nodup {α : Type} [DecidableEq α] {e : α} :
    ∀ {y : ℕ} {rows : List (List α)}, (gridPoints e y rows).Nodup := by
  intro y rows
  induction rows generalizing y with
  | nil => simp [gridPoints]
  | cons row rest ih =>
    simp only [gridPoints]
    refine List.Nodup.append rowPoints_nodup ih ?_
    intro a ha hb
    have h1 := (mem_rowPoints ha).1
    have h2 := (mem_gridPoints_snd hb).1
    omega

lemma mem_box_points {s : PolygonShape} {p : ℕ × ℕ} :
    p ∈ s.box_points ↔ 1 ≤ p.1 ∧ p.1 ≤ s.width ∧ 1 ≤ p.2 ∧ p.2 ≤ s.height := by
  obtain ⟨a, b⟩ := p
  simp only [PolygonShape.box_points, List.mem_flatten, List.mem_map, List.mem_range]
  constructor
  · rintro ⟨l, ⟨x, hx, rfl⟩, hp⟩
    simp only [List.mem_map, List.mem_range, Prod.mk.injEq] at hp
    obtain ⟨y, hy, hxy⟩ := hp
    omega
  · rintro ⟨h1, h2, h3, h4⟩
    refine ⟨_, ⟨a - 1, by omega, rfl⟩, ?_⟩
    simp only [List.mem_map, List.mem_range, Prod.mk.injEq]
    exact ⟨b - 1, by omega, by omega, by omega⟩

lemma box_points_nodup (s : PolygonShape) : s.box_points.Nodup := by
  rw [PolygonShape.box_points, List.nodup_flatten]
  constructor
  · intro l hl
    simp only [List.mem_map, List.mem_range] at hl
    obtain ⟨x, hx, rfl⟩ := hl
    refine List.Nodup.map ?_ (List.nodup_range _)
    intro a b h
    simp only [Prod.mk.injEq] at h
    omega
  · rw [List.pairwise_map]
    refine (List.pairwise_lt_range _).imp ?_
    intro a b hab q hq hq2
    simp only [List.mem_map, List.mem_range] at hq hq2
    obtain ⟨y1, _, rfl⟩ := hq
    obtain ⟨y2, _, h⟩ := hq2
    simp only [Prod.mk.injEq] at h
    omega

lemma box_points_length (s : PolygonShape) : s.box_points.length = s.width * s.height := by
  rw [PolygonShape.box_points, List.length_flatten, List.map_map]
  have : ((List.range s.width).map
      (List.length ∘ fun x => (List.range s.height).map (fun y => (x + 1, y + 1)))) =
      List.replicate s.width s.height := by
    rw [List.eq_replicate_iff]
    constructor
    · simp
    · intro b hb
      simp only [List.mem_map, Function.comp_apply] at hb
      obtain ⟨x, _, rfl⟩ := hb
      simp
  rw [this, List.sum_replicate, smul_eq_mul]

lemma length_filter_le_of_nodup_subset {l L : List (ℕ × ℕ)} (q : ℕ × ℕ → Bool)
    (hl : l.Nodup) (hL : L.Nodup) (hsub : ∀ a ∈ l, a ∈ L) :
    (l.filter q).length ≤ (L.filter q).length := by
  rw [← List.toFinset_card_of_nodup (hl.filter _),
    ← List.toFinset_card_of_nodup (hL.filter _)]
  apply Finset.card_le_card
  intro a ha
  simp only [List.mem_toFinset, List.mem_filter] at ha ⊢
  exact ⟨hsub a ha.1, ha.2⟩

lemma non_empty_points_nodup {α : Type} [DecidableEq α] (m : Matrix α) :
    m.non_empty_points.Nodup := gridPoints_nodup

lemma non_empty_points_subset_box {s : PolygonShape} {m : Matrix Bool} (hwf : m.WF)
    (hw : s.width = m.width) (hh : s.height = m.height) :
    ∀ p ∈ m.non_empty_points, p ∈ s.box_points := by
  intro p hp
  have h1 := mem_gridPoints_fst (w := m.width) (fun r hr => hwf.2 r hr) hp
  have h2 := mem_gridPoints_snd hp
  have h3 := hwf.1
  rw [mem_box_points]
  refine ⟨h1.1, by omega, by omega, by omega⟩

lemma flatten_length_of_wf {α : Type} (m : Matrix α) (hwf : m.WF) :
    m.flatten.length = m.size := by
  rw [Matrix.flatten, List.length_flatten, Matrix.size]
  have : m.data.map List.length = List.replicate m.height m.width := by
    rw [List.eq_replicate_iff]
    exact ⟨by rw [List.length_map, hwf.1], by
      intro b hb
      simp only [List.mem_map] at hb
      obtain ⟨row, hrow, rfl⟩ := hb
      exact hwf.2 row hrow⟩
  rw [this, List.sum_replicate, smul_eq_mul, Nat.mul_comm]

lemma PolygonShape.likeness_eq (s : PolygonShape) (m : Matrix Bool)
    (hw : s.width = m.width) (hh : s.height = m.height) (hbox : s.box_size ≠ 0) :
    s.likeness m = some
      (((((m.non_empty_points.filter s.contains).length : ℤ) +
        (s.unfilled_size -
          ((m.non_empty_points.length : ℤ) -
            ((m.non_empty_points.filter s.contains).length : ℤ)))) : ℚ) /
        (s.box_size : ℚ)) := by
  unfold PolygonShape.likeness
  rw [if_neg (by simp [hw]), if_neg (by simp [hh])]
  cases hpts : m.non_empty_points with
  | nil => simp [hpts, hbox]
  | cons a t => simp [hpts, hbox]

/-- **C1.** For every `PolygonShape` glyph constructed for section size
`(w, h)` (of positive area — `likeness` divides by the box area) and every
boolean matrix of exactly those dimensions, `likeness` returns
`(filledWithin + unfilledOutside) / boxArea`, where `filledWithin` is the
count of the matrix's lit points (1-indexed `(x+1, y+1)`) contained by the
glyph's polygon, `filledOutside = #lit − filledWithin` and
`unfilledOutside = unfilledArea − filledOutside`; in particular, when the
matrix has no lit points the result equals `unfilledArea / boxArea`. -/
theorem c1_polygon_likeness_formula (s : PolygonShape) (m : Matrix Bool)
    (hw : s.width = m.width) (hh : s.height = m.height) (hbox : s.box_size ≠ 0) :
    s.likeness m = some
      ((((m.non_empty_points.filter s.contains).length : ℚ) +
        ((s.unfilled_size : ℚ) -
          ((m.non_empty_points.length : ℚ) -
            ((m.non_empty_points.filter s.contains).length : ℚ)))) /
        (s.box_size : ℚ))
    ∧ (m.non_empty_points = [] →
        s.likeness m = some ((s.unfilled_size : ℚ) / (s.box_size : ℚ))) := by
  have heq := s.likeness_eq m hw hh hbox
  constructor
  · rw [heq]
    push_cast
    ring_nf
  · intro h0
    rw [heq, h0]
    norm_num

/-- Witness for C1 at the concrete glyph `c1Shape` and matrix `c1Matrix`. -/
theorem c1_witness :
    c1Shape.likeness c1Matrix = some
      ((((c1Matrix.non_empty_points.filter c1Shape.contains).length : ℚ) +
        ((c1Shape.unfilled_size : ℚ) -
          ((c1Matrix.non_empty_points.length : ℚ) -
            ((c1Matrix.non_empty_points.filter c1Shape.contains).length : ℚ)))) /
        (c1Shape.box_size : ℚ))
    ∧ (c1Matrix.non_empty_points = [] →
        c1Shape.likeness c1Matrix =
          some ((c1Shape.unfilled_size : ℚ) / (c1Shape.box_size : ℚ))) :=
  c1_polygon_likeness_formula c1Shape c1Matrix rfl rfl (by decide)

/-- **C6.** For every glyph (Empty, Filled, or Polygon) and every non-empty
well-formed boolean matrix whose width and height equal the glyph's
construction size (a condition that only constrains Polygon glyphs, the only
kind carrying a construction size), the value returned by `likeness` is a
rational `q` with `0 ≤ q ≤ 1`. -/
theorem c6_likeness_bounds (sh : Shape) (m : Matrix Bool) (hwf : m.WF)
    (hpos : 0 < m.size)
    (hdim : ∀ s, sh = Shape.polygonShape s → s.width = m.width ∧ s.height = m.height) :
    ∃ q, sh.likeness m = some q ∧ 0 ≤ q ∧ q ≤ 1 := by
  have hsizeQ : (0 : ℚ) < (m.size : ℚ) := by exact_mod_cast hpos
  cases sh with
  | emptyShape c =>
    refine ⟨((m.flatten.filter (fun v => !v)).length : ℚ) / (m.size : ℚ), ?_, ?_, ?_⟩
    · simp [Shape.likeness, EmptyShape.likeness, Nat.pos_iff_ne_zero.mp hpos]
    · positivity
    · rw [div_le_one hsizeQ]
      have h1 : (m.flatten.filter (fun v => !v)).length ≤ m.flatten.length :=
        List.length_filter_le _ _
      have h2 := flatten_length_of_wf m hwf
      exact_mod_cast h2 ▸ h1
  | filledShape c =>
    refine ⟨((m.flatten.filter (fun v => v)).length : ℚ) / (m.size : ℚ), ?_, ?_, ?_⟩
    · simp [Shape.likeness, FilledShape.likeness, Nat.pos_iff_ne_zero.mp hpos]
    · positivity
    · rw [div_le_one hsizeQ]
      have h1 : (m.flatten.filter (fun v => v)).length ≤ m.flatten.length :=
        List.length_filter_le _ _
      have h2 := flatten_length_of_wf m hwf
      exact_mod_cast h2 ▸ h1
  | polygonShape s =>
    obtain ⟨hw, hh⟩ := hdim s rfl
    have hboxeq : s.box_size = m.size := by
      rw [PolygonShape.box_size, Matrix.size, hw, hh]
    have hbox : s.box_size ≠ 0 := by omega
    have heq := s.likeness_eq m hw hh hbox
    have hnodup := non_empty_points_nodup m
    have hboxnodup := box_points_nodup s
    have hsub := non_empty_points_subset_box hwf hw hh
    have h1 : (m.non_empty_points.filter s.contains).length ≤ s.filled_size :=
      length_filter_le_of_nodup_subset s.contains hnodup hboxnodup hsub
    have h2 : (m.non_empty_points.filter (fun a => !(s.contains a))).length ≤
        (s.box_points.filter (fun a => !(s.contains a))).length :=
      length_filter_le_of_nodup_subset _ hnodup hboxnodup hsub
    have hsplit_pts :=
      List.length_eq_length_filter_add (l := m.non_empty_points) s.contains
    have hsplit_box :=
      List.length_eq_length_filter_add (l := s.box_points) s.contains
    have hlen := box_points_length s
    have hufs : s.unfilled_size = (s.box_size : ℤ) - (s.filled_size : ℤ) := rfl
    have hfs : s.filled_size = (s.box_points.filter s.contains).length := rfl
    have hBS : s.box_size = s.width * s.height := rfl
    rw [hlen] at hsplit_box
    have key1 : (0 : ℤ) ≤ ((m.non_empty_points.filter s.contains).length : ℤ) +
        (((s.box_size : ℤ) - (s.filled_size : ℤ)) -
          ((m.non_empty_points.length : ℤ) -
            ((m.non_empty_points.filter s.contains).length : ℤ))) := by omega
    have key2 : ((m.non_empty_points.filter s.contains).length : ℤ) +
        (((s.box_size : ℤ) - (s.filled_size : ℤ)) -
          ((m.non_empty_points.length : ℤ) -
            ((m.non_empty_points.filter s.contains).length : ℤ))) ≤
        (s.box_size : ℤ) := by omega
    refine ⟨_, heq, ?_, ?_⟩
    · apply div_nonneg _ (by positivity)
      rw [hufs]
      push_cast
      exact_mod_cast key1
    · rw [div_le_one (by exact_mod_cast Nat.pos_of_ne_zero hbox)]
      rw [hufs]
      push_cast
      exact_mod_cast key2

/-- Witness for C6 at the concrete glyph `c6Shape` and matrix `c6Matrix`. -/
theorem c6_witness :
    ∃ q, c6Shape.likeness c6Matrix = some q ∧ 0 ≤ q ∧ q ≤ 1 :=
  c6_likeness_bounds c6Shape c6Matrix (by decide) (by decide)
    (fun s h => by cases h; exact ⟨rfl, rfl⟩)

lemma pyround_nonneg {q : ℚ} (hq : 0 ≤ q) : 0 ≤ pyround q := by
  unfold pyround
  dsimp only
  have h0 : (0 : ℤ) ≤ ⌊q⌋ := Int.floor_nonneg.mpr hq
  split_ifs <;> omega

lemma pytrunc_nonneg {q : ℚ} (hq : 0 ≤ q) : 0 ≤ pytrunc q := by
  unfold pytrunc
  rw [if_neg (not_lt.mpr hq)]
  exact Int.floor_nonneg.mpr hq

lemma pytrunc_intCast (n : ℤ) : pytrunc (n : ℚ) = n := by
  unfold pytrunc
  split_ifs with h
  · rw [← Int.cast_neg, Int.floor_intCast]
    omega
  · exact Int.floor_intCast n

lemma pytrunc_div_two (e : ℤ) (he : 0 ≤ e) : pytrunc ((e : ℚ) / 2) = e / 2 := by
  unfold pytrunc
  rw [if_neg (not_lt.mpr (by positivity))]
  have h := Rat.floor_intCast_div_natCast e 2
  simpa using h

lemma round_to_multiple_dvd (aw ew : ℤ) : aw ∣ round_to_multiple aw ew := by
  unfold round_to_multiple
  have hdm := Int.ediv_add_emod ew aw
  split_ifs with h1 h2
  · exact ⟨ew / aw, by linarith⟩
  · exact ⟨ew / aw + 1, by ring_nf; linarith⟩
  · exact Int.dvd_of_emod_eq_zero (not_not.mp h1)

lemma round_to_multiple_nonneg {aw ew : ℤ} (haw : 1 ≤ aw) (hew : 0 ≤ ew) :
    0 ≤ round_to_multiple aw ew := by
  unfold round_to_multiple
  have h1 : 0 ≤ ew % aw := Int.emod_nonneg ew (by omega)
  have h2 : ew % aw < aw := Int.emod_lt_of_pos ew (by omega)
  split_ifs with ha hb
  · have := hb.1
    omega
  · omega
  · exact hew

lemma round_to_multiple_pos {aw ew : ℤ} (haw : 1 ≤ aw) (hew : 1 ≤ ew) :
    1 ≤ round_to_multiple aw ew := by
  unfold round_to_multiple
  have h1 : 0 ≤ ew % aw := Int.emod_nonneg ew (by omega)
  have h2 : ew % aw < aw := Int.emod_lt_of_pos ew (by omega)
  split_ifs with ha hb
  · have := hb.1
    omega
  · omega
  · exact hew

lemma round_to_multiple_le_cap {aw ew cap : ℤ} (haw : 1 ≤ aw) (hcap : aw ∣ cap)
    (hle : ew ≤ cap) : round_to_multiple aw ew ≤ cap := by
  unfold round_to_multiple
  have h1 : 0 ≤ ew % aw := Int.emod_nonneg ew (by omega)
  have h2 : ew % aw < aw := Int.emod_lt_of_pos ew (by omega)
  have hdm := Int.ediv_add_emod ew aw
  split_ifs with ha hb
  · omega
  · obtain ⟨m, rfl⟩ := hcap
    have hr1 : 1 ≤ ew % aw := by omega
    have hlt : aw * (ew / aw) < aw * m := by omega
    have hdivlt : ew / aw < m := lt_of_mul_lt_mul_left hlt (by omega)
    have : aw * (ew / aw + 1) ≤ aw * m :=
      mul_le_mul_of_nonneg_left (by omega) (by omega)
    rw [mul_add, mul_one] at this
    omega
  · exact hle

lemma round_to_multiple_eq_self {aw ew : ℤ} (h : ew % aw = 0) :
    round_to_multiple aw ew = ew := by
  unfold round_to_multiple
  rw [if_neg (not_not.mpr h)]

lemma plan_end_width_none {c : Image2ASCII} {w h : ℤ}
    (hamh : c.ascii_max_height = none) :
    plan_end_width c w h = min w (c.ascii_width * c.quality) := by
  unfold plan_end_width
  rw [hamh]

lemma one_le_budget {c : Image2ASCII} (haw : 1 ≤ c.ascii_width)
    (hq : 1 ≤ c.quality) : 1 ≤ c.ascii_width * c.quality := by
  nlinarith

lemma plan_end_width_nonneg {c : Image2ASCII} {w h : ℤ}
    (hw : 1 ≤ w) (hh : 1 ≤ h) (haw : 1 ≤ c.ascii_width) (hq : 1 ≤ c.quality)
    (hr : 0 < c.ascii_ratio)
    (hamh : ∀ m, c.ascii_max_height = some m → 1 ≤ m) :
    0 ≤ plan_end_width c w h := by
  have hmin : (0 : ℤ) ≤ min w (c.ascii_width * c.quality) :=
    le_min (by omega) (by have := one_le_budget haw hq; omega)
  unfold plan_end_width
  cases hm : c.ascii_max_height with
  | none => exact hmin
  | some m =>
    dsimp only
    have hm1 := hamh m hm
    have hmQ : (0 : ℚ) ≤ (m : ℚ) := by exact_mod_cast (by omega : (0 : ℤ) ≤ m)
    have hqQ : (0 : ℚ) ≤ (c.quality : ℚ) := by exact_mod_cast (by omega : (0 : ℤ) ≤ c.quality)
    have hmh : (0 : ℤ) ≤ pyround ((m : ℚ) * (c.quality : ℚ) * c.ascii_ratio) :=
      pyround_nonneg (by
        apply mul_nonneg (mul_nonneg hmQ hqQ) (le_of_lt hr))
    split_ifs
    · apply pyround_nonneg
      have hwQ : (0 : ℚ) ≤ (w : ℚ) := by exact_mod_cast (by omega : (0 : ℤ) ≤ w)
      have hhQ : (0 : ℚ) ≤ (h : ℚ) := by exact_mod_cast (by omega : (0 : ℤ) ≤ h)
      have hmhQ : (0 : ℚ) ≤ (pyround ((m : ℚ) * (c.quality : ℚ) * c.ascii_ratio) : ℚ) := by
        exact_mod_cast hmh
      apply div_nonneg _ (le_of_lt hr)
      exact mul_nonneg hwQ (div_nonneg hmhQ hhQ)
    · exact hmin

lemma resized_dims_fst (c : Image2ASCII) (w h : ℤ) :
    (resized_dims c w h).1 = round_to_multiple c.ascii_width (plan_end_width c w h) := by
  unfold resized_dims
  dsimp only
  split_ifs with h1
  · rfl
  · simpa using not_ne_iff.mp h1

lemma width_mod_section_width {c : Image2ASCII} {n : ℤ} (haw : 1 ≤ c.ascii_width)
    (hdvd : c.ascii_width ∣ n) (hn : 0 ≤ n) :
    n % (get_section_size c n).1 = 0 := by
  obtain ⟨k, rfl⟩ := hdvd
  have hk : 0 ≤ k := by
    by_contra hneg
    push_neg at hneg
    nlinarith
  have hawQ : (c.ascii_width : ℚ) ≠ 0 := by
    exact_mod_cast (by omega : c.ascii_width ≠ 0)
  have hcast : ((c.ascii_width * k : ℤ) : ℚ) / (c.ascii_width : ℚ) = ((k : ℤ) : ℚ) := by
    push_cast
    rw [mul_comm, mul_div_assoc, div_self hawQ, mul_one]
  unfold get_section_size
  simp only [hcast, pytrunc_intCast]
  split_ifs with h0
  · simp [h0]
  · exact Int.mul_emod_left _ _

lemma get_section_size_fst_pos {c : Image2ASCII} {n : ℤ} (haw : 1 ≤ c.ascii_width)
    (hdvd : c.ascii_width ∣ n) (hn : 0 ≤ n) :
    1 ≤ (get_section_size c n).1 := by
  obtain ⟨k, rfl⟩ := hdvd
  have hk : 0 ≤ k := by
    by_contra hneg
    push_neg at hneg
    nlinarith
  have hawQ : (c.ascii_width : ℚ) ≠ 0 := by
    exact_mod_cast (by omega : c.ascii_width ≠ 0)
  have hcast : ((c.ascii_width * k : ℤ) : ℚ) / (c.ascii_width : ℚ) = ((k : ℤ) : ℚ) := by
    push_cast
    rw [mul_comm, mul_div_assoc, div_self hawQ, mul_one]
  unfold get_section_size
  simp only [hcast, pytrunc_intCast]
  split_ifs with h0
  · omega
  · omega

lemma snd_pos_aux (ratio : ℚ) (hr : 0 < ratio) (sw : ℤ) (hsw : 1 ≤ sw) :
    1 ≤ (if pytrunc ((sw : ℚ) * ratio) = 0 then 1 else pytrunc ((sw : ℚ) * ratio)) := by
  have h0 : 0 ≤ pytrunc ((sw : ℚ) * ratio) :=
    pytrunc_nonneg (mul_nonneg (by exact_mod_cast (by omega : (0 : ℤ) ≤ sw)) hr.le)
  split_ifs <;> omega

lemma get_section_size_snd_pos {c : Image2ASCII} {n : ℤ}
    (hr : 0 < c.ascii_ratio) (hfst : 1 ≤ (get_section_size c n).1) :
    1 ≤ (get_section_size c n).2 := by
  exact snd_pos_aux c.ascii_ratio hr (get_section_size c n).1 hfst

lemma pad_height_mod {h2 s : ℤ} (hs : 1 ≤ s) : (pad_height h2 s).1 % s = 0 := by
  unfold pad_height
  split_ifs with h
  · dsimp only
    have hm1 : 0 ≤ h2 % s := Int.emod_nonneg h2 (by omega)
    have hm2 : h2 % s < s := Int.emod_lt_of_pos h2 (by omega)
    have he : 0 ≤ s - h2 % s := by omega
    rw [pytrunc_div_two _ he]
    have e2 := Int.ediv_add_emod (s - h2 % s) 2
    have hd := Int.ediv_add_emod h2 s
    have hkey : h2 + (s - h2 % s) / 2 - -((s - h2 % s) / 2 + (s - h2 % s) % 2) =
        s * (h2 / s + 1) := by
      ring_nf
      ring_nf at hd e2
      linarith
    simp only [hkey]
    exact Int.mul_emod_right _ _
  · simpa using not_not.mp h

lemma pad_height_noop {h2 s : ℤ} (h : h2 % s = 0) : pad_height h2 s = (h2, false) := by
  unfold pad_height
  rw [if_neg (not_not.mpr h)]

/-- **C4.** For every image with positive dimensions and every valid
configuration (positive `ascii_width`, `quality` and `ascii_ratio`; a
positive `ascii_max_height` when set), the image returned by `do_resize`
together with the `(section_width, section_height)` computed for it by
`get_section_size` satisfies `resizedWidth % sectionWidth = 0` and
`resizedHeight % sectionHeight = 0`. -/
theorem c4_coverage_invariant (c : Image2ASCII) (w h : ℤ)
    (hw : 1 ≤ w) (hh : 1 ≤ h) (haw : 1 ≤ c.ascii_width) (hq : 1 ≤ c.quality)
    (hr : 0 < c.ascii_ratio)
    (hamh : ∀ m, c.ascii_max_height = some m → 1 ≤ m) :
    (do_resize c w h).width % (get_section_size c (do_resize c w h).width).1 = 0 ∧
    (do_resize c w h).height % (get_section_size c (do_resize c w h).width).2 = 0 := by
  have hplan := plan_end_width_nonneg hw hh haw hq hr hamh
  have hdvd' := round_to_multiple_dvd c.ascii_width (plan_end_width c w h)
  have hnn := round_to_multiple_nonneg haw hplan
  have hwidth : (do_resize c w h).width = (resized_dims c w h).1 := rfl
  have hdvd : c.ascii_width ∣ (do_resize c w h).width := by
    rw [hwidth, resized_dims_fst]
    exact hdvd'
  have hnn2 : 0 ≤ (do_resize c w h).width := by
    rw [hwidth, resized_dims_fst]
    exact hnn
  have hsh : 1 ≤ (get_section_size c (do_resize c w h).width).2 :=
    get_section_size_snd_pos hr (get_section_size_fst_pos haw hdvd hnn2)
  constructor
  · exact width_mod_section_width haw hdvd hnn2
  · have hheight : (do_resize c w h).height =
        (pad_height (resized_dims c w h).2
          (get_section_size c (resized_dims c w h).1).2).1 := rfl
    rw [hheight, ← hwidth]
    exact pad_height_mod hsh

/-- Witness for C4 at a concrete image and configuration. -/
theorem c4_witness :
    (do_resize c4Config 7 5).width %
        (get_section_size c4Config (do_resize c4Config 7 5).width).1 = 0 ∧
    (do_resize c4Config 7 5).height %
        (get_section_size c4Config (do_resize c4Config 7 5).width).2 = 0 :=
  c4_coverage_invariant c4Config 7 5 (by norm_num) (by norm_num)
    (by norm_num [c4Config]) (by norm_num [c4Config]) (by norm_num [c4Config])
    (by intro m hm; simp [c4Config] at hm; omega)

/-- **C5 counterexample.** With `ascii_width = 1`, `quality = 5`,
`ascii_ratio = 1` and `ascii_max_height = 2`, `do_resize` maps a 3×10 image
to a 3×12 image (no resize, height padding only: the max-height shrink does
not trigger because 10 ≯ max_height = 10, but the padding then pushes the
height to 12); applying `do_resize` to that own output resizes it down to
2×8 — a resize is performed and the dimensions change, so `do_resize` is not
idempotent as claimed. -/
theorem c5_counterexample :
    do_resize c5Config 3 10 =
      { width := 3, height := 12, resized := false, padded := true } ∧
    (do_resize c5Config 3 12).resized = true ∧
    (do_resize c5Config 3 12).width = 2 ∧
    (do_resize c5Config 3 12).height = 8 := by
  refine ⟨?_, ?_, ?_, ?_⟩ <;>
  · simp only [do_resize, plan_end_width, round_to_multiple, resized_dims,
      pad_height, get_section_size, pyround, pytrunc, c5Config]
    norm_num

/-- **C5 (amended).** `do_resize` is idempotent whenever `ascii_max_height`
is unset (for positive image dimensions and positive `ascii_width`,
`quality`, `ascii_ratio`): applying `do_resize` to its own output performs
no resize and no padding and returns an image of the same dimensions.  (With
`ascii_max_height` set this fails — see the counterexample: the height
padding can push the output back over the height cap.) -/
theorem c5_idempotent_without_max_height (c : Image2ASCII) (w h : ℤ)
    (hw : 1 ≤ w) (_hh : 1 ≤ h) (haw : 1 ≤ c.ascii_width) (hq : 1 ≤ c.quality)
    (hr : 0 < c.ascii_ratio) (hamh : c.ascii_max_height = none) :
    do_resize c (do_resize c w h).width (do_resize c w h).height =
      { width := (do_resize c w h).width, height := (do_resize c w h).height,
        resized := false, padded := false } := by
  have hplan1 : plan_end_width c w h = min w (c.ascii_width * c.quality) :=
    plan_end_width_none hamh
  have hbudget := one_le_budget haw hq
  have hplanpos : 1 ≤ plan_end_width c w h := by
    rw [hplan1]
    exact le_min hw hbudget
  have hplancap : plan_end_width c w h ≤ c.ascii_width * c.quality := by
    rw [hplan1]
    exact min_le_right _ _
  have hw1eq : (do_resize c w h).width =
      round_to_multiple c.ascii_width (plan_end_width c w h) :=
    resized_dims_fst c w h
  have hw1pos : 1 ≤ (do_resize c w h).width := by
    rw [hw1eq]
    exact round_to_multiple_pos haw hplanpos
  have hw1cap : (do_resize c w h).width ≤ c.ascii_width * c.quality := by
    rw [hw1eq]
    exact round_to_multiple_le_cap haw ⟨c.quality, rfl⟩ hplancap
  have hw1dvd : c.ascii_width ∣ (do_resize c w h).width := by
    rw [hw1eq]
    exact round_to_multiple_dvd _ _
  have hsw1 : 1 ≤ (get_section_size c (do_resize c w h).width).1 :=
    get_section_size_fst_pos haw hw1dvd (by omega)
  have hsh1 : 1 ≤ (get_section_size c (do_resize c w h).width).2 :=
    get_section_size_snd_pos hr hsw1
  have hh1def : (do_resize c w h).height =
      (pad_height (resized_dims c w h).2
        (get_section_size c (resized_dims c w h).1).2).1 := rfl
  have hh1mod : (do_resize c w h).height %
      (get_section_size c (do_resize c w h).width).2 = 0 := by
    rw [hh1def]
    exact pad_height_mod hsh1
  have hplan2 : plan_end_width c (do_resize c w h).width (do_resize c w h).height =
      (do_resize c w h).width := by
    rw [plan_end_width_none hamh]
    exact min_eq_left hw1cap
  have hrtm2 : round_to_multiple c.ascii_width
      (plan_end_width c (do_resize c w h).width (do_resize c w h).height) =
      (do_resize c w h).width := by
    rw [hplan2]
    exact round_to_multiple_eq_self (Int.emod_eq_zero_of_dvd hw1dvd)
  have hdims2 : resized_dims c (do_resize c w h).width (do_resize c w h).height =
      ((do_resize c w h).width, (do_resize c w h).height) := by
    unfold resized_dims
    dsimp only
    rw [hrtm2]
    simp
  have hunf : do_resize c (do_resize c w h).width (do_resize c w h).height =
      { width := (resized_dims c (do_resize c w h).width (do_resize c w h).height).1,
        height := (pad_height
          (resized_dims c (do_resize c w h).width (do_resize c w h).height).2
          (get_section_size c
            (resized_dims c (do_resize c w h).width (do_resize c w h).height).1).2).1,
        resized := decide ((do_resize c w h).width ≠ round_to_multiple c.ascii_width
          (plan_end_width c (do_resize c w h).width (do_resize c w h).height)),
        padded := (pad_height
          (resized_dims c (do_resize c w h).width (do_resize c w h).height).2
          (get_section_size c
            (resized_dims c (do_resize c w h).width (do_resize c w h).height).1).2).2 } :=
    rfl
  rw [hunf, hdims2, hrtm2]
  dsimp only
  rw [pad_height_noop hh1mod]
  simp

/-- Witness for the amended C5 at a concrete image and configuration. -/
theorem c5_witness :
    do_resize c5WitnessConfig (do_resize c5WitnessConfig 5 3).width
        (do_resize c5WitnessConfig 5 3).height =
      { width := (do_resize c5WitnessConfig 5 3).width,
        height := (do_resize c5WitnessConfig 5 3).height,
        resized := false, padded := false } :=
  c5_idempotent_without_max_height c5WitnessConfig 5 3 (by norm_num) (by norm_num)
    (by norm_num [c5WitnessConfig]) (by norm_num [c5WitnessConfig])
    (by norm_num [c5WitnessConfig]) rfl

lemma pymax_step_keep (b : String × ℚ) (l : List (String × ℚ))
    (h : ∀ x ∈ l, x.2 ≤ b.2) :
    l.foldl (fun best x => if x.2 > best.2 then x else best) b = b := by
  induction l generalizing b with
  | nil => rfl
  | cons x t ih =>
    simp only [List.foldl_cons]
    rw [if_neg (not_lt.mpr (h x (by simp)))]
    exact ih b (fun y hy => h y (by simp [hy]))

lemma pymax_step_mem (b : String × ℚ) (l : List (String × ℚ)) :
    l.foldl (fun best x => if x.2 > best.2 then x else best) b ∈ b :: l := by
  induction l generalizing b with
  | nil => simp
  | cons x t ih =>
    simp only [List.foldl_cons]
    by_cases hx : x.2 > b.2
    · rw [if_pos hx]
      have := ih x
      simp only [List.mem_cons] at this ⊢
      tauto
    · rw [if_neg hx]
      have := ih b
      simp only [List.mem_cons] at this ⊢
      tauto

lemma get_char_go_early (minL : ℚ) (coords : List (ℤ × ℤ))
    (l₁ : List CoreShape) (g : CoreShape) (l₂ : List CoreShape) :
    ∀ (chars : List (String × ℚ)),
      (∀ s ∈ l₁, ¬ (s.likeness coords > minL)) → g.likeness coords > minL →
      get_char_go minL coords (l₁ ++ g :: l₂) chars = some g.char := by
  induction l₁ with
  | nil =>
    intro chars _ hg
    simp [get_char_go, hg]
  | cons s t ih =>
    intro chars h1 hg
    simp only [List.cons_append, get_char_go]
    rw [if_neg (h1 s (by simp))]
    exact ih _ (fun x hx => h1 x (by simp [hx])) hg

lemma get_char_go_all_fail (minL : ℚ) (coords : List (ℤ × ℤ))
    (shapes : List CoreShape) :
    ∀ (chars : List (String × ℚ)),
      (∀ s ∈ shapes, ¬ (s.likeness coords > minL)) →
      get_char_go minL coords shapes chars =
        pymax_snd (chars ++ shapes.map (fun s => (s.char, s.likeness coords))) := by
  induction shapes with
  | nil => intro chars _; simp [get_char_go]
  | cons s t ih =>
    intro chars h
    simp only [get_char_go, List.map_cons]
    rw [if_neg (h s (by simp))]
    rw [ih _ (fun x hx => h x (by simp [hx]))]
    simp

lemma pymax_first_argmax (l₁ : List (String × ℚ)) (mv : String × ℚ)
    (l₂ : List (String × ℚ))
    (h1 : ∀ x ∈ l₁, x.2 < mv.2) (h2 : ∀ x ∈ l₂, x.2 ≤ mv.2) :
    pymax_snd (l₁ ++ mv :: l₂) = some mv.1 := by
  cases l₁ with
  | nil =>
    simp only [List.nil_append, pymax_snd]
    rw [pymax_step_keep mv l₂ h2]
  | cons c t =>
    simp only [List.cons_append, pymax_snd]
    rw [List.foldl_append]
    have hb := pymax_step_mem c t
    have hblt : (t.foldl (fun best x => if x.2 > best.2 then x else best) c).2 < mv.2 := by
      rcases List.mem_cons.mp hb with h | h
      · rw [h]
        exact h1 c (by simp)
      · exact h1 _ (by simp [h])
    simp only [List.foldl_cons]
    rw [if_pos hblt]
    rw [pymax_step_keep mv l₂ h2]

/-- **C2.** In `get_char`, glyphs are evaluated in the catalog's fixed order:
the first glyph whose likeness strictly exceeds `min_likeness` is returned
immediately — independently of everything after it in the catalog, which is
never evaluated; when no glyph's likeness strictly exceeds `min_likeness`,
the glyph with the maximum likeness is returned, ties resolved in favour of
the earliest glyph in catalog order. -/
theorem c2_get_char_selection :
    (∀ (c : Image2ASCII) (coords : List (ℤ × ℤ)) (l₁ : List CoreShape)
        (g : CoreShape) (l₂ : List CoreShape),
      (∀ s ∈ l₁, ¬ (s.likeness coords > c.min_likeness)) →
      g.likeness coords > c.min_likeness →
      get_char c (l₁ ++ g :: l₂) coords = some g.char)
    ∧ (∀ (c : Image2ASCII) (coords : List (ℤ × ℤ)) (l₁ : List CoreShape)
        (g : CoreShape) (l₂ : List CoreShape),
      (∀ s ∈ l₁ ++ g :: l₂, ¬ (s.likeness coords > c.min_likeness)) →
      (∀ s ∈ l₁, s.likeness coords < g.likeness coords) →
      (∀ s ∈ l₂, s.likeness coords ≤ g.likeness coords) →
      get_char c (l₁ ++ g :: l₂) coords = some g.char) := by
  constructor
  · intro c coords l₁ g l₂ h1 hg
    exact get_char_go_early c.min_likeness coords l₁ g l₂ [] h1 hg
  · intro c coords l₁ g l₂ hall h1 h2
    rw [get_char, get_char_go_all_fail c.min_likeness coords _ [] hall]
    simp only [List.nil_append, List.map_append, List.map_cons]
    exact pymax_first_argmax _ (g.char, g.likeness coords) _
      (by
        intro x hx
        simp only [List.mem_map] at hx
        obtain ⟨s, hs, rfl⟩ := hx
        exact h1 s hs)
      (by
        intro x hx
        simp only [List.mem_map] at hx
        obtain ⟨s, hs, rfl⟩ := hx
        exact h2 s hs)

/-- Witness for C2: early exit picks `"$"` in `c2Shapes`; the all-fail
fallback picks the first of the tied glyphs in `c2TieShapes`. -/
theorem c2_witness :
    get_char { min_likeness := 9/10 } c2Shapes [] = some "$" ∧
    get_char { min_likeness := 9/10 } c2TieShapes [] = some " " := by
  constructor
  · exact c2_get_char_selection.1 { min_likeness := 9/10 } []
      [{ char := " ", likeness := fun _ => 0 }] { char := "$", likeness := fun _ => 1 }
      [{ char := "o", likeness := fun _ => 1/2 }]
      (by
        intro s hs
        obtain rfl := List.mem_singleton.mp hs
        norm_num)
      (by norm_num)
  · exact c2_get_char_selection.2 { min_likeness := 9/10 } []
      [] { char := " ", likeness := fun _ => 1/2 }
      [{ char := "$", likeness := fun _ => 1/2 }]
      (by
        intro s hs
        simp only [List.nil_append, List.mem_cons, List.not_mem_nil, or_false] at hs
        rcases hs with rfl | rfl <;> norm_num)
      (by simp)
      (by
        intro s hs
        obtain rfl := List.mem_singleton.mp hs
        norm_num)

lemma Int_log_two_eq {q : ℚ} {n : ℤ} (hq : 0 < q)
    (h1 : (2:ℚ) ^ n ≤ q) (h2 : q < (2:ℚ) ^ (n + 1)) : Int.log 2 q = n := by
  have a1 : n ≤ Int.log 2 q := (Int.zpow_le_iff_le_log (by norm_num) hq).mp (by exact_mod_cast h1)
  have a2 : Int.log 2 q < n + 1 := (Int.lt_zpow_iff_log_lt (by norm_num) hq).mp (by exact_mod_cast h2)
  omega

lemma float64_round_eq_val {q v : ℚ} {e m : ℤ} (hq : 0 < q)
    (h1 : (2:ℚ) ^ (e + 52) ≤ q) (h2 : q < (2:ℚ) ^ (e + 53))
    (h3 : pyround (q / (2:ℚ) ^ e) = m)
    (hv : (m : ℚ) * (2:ℚ) ^ e = v) :
    float64_round q = v := by
  have hlog : Int.log 2 q = e + 52 :=
    Int_log_two_eq hq h1 (by rw [show e + 52 + 1 = e + 53 by ring]; exact h2)
  unfold float64_round
  rw [if_neg (ne_of_gt hq), if_pos hq, hlog, show e + 52 - 52 = e by ring, h3, hv]

lemma f64_c299 : float64_round (0.299 : ℚ) = 5386305154335113 / 18014398509481984 :=
  float64_round_eq_val (e := -54) (m := 5386305154335113) (by norm_num) (by norm_num)
    (by norm_num) (by simp only [pyround]; norm_num) (by norm_num)

lemma f64_c587 : float64_round (0.587 : ℚ) = 2643612981266481 / 4503599627370496 :=
  float64_round_eq_val (e := -53) (m := 5287225962532962) (by norm_num) (by norm_num)
    (by norm_num) (by simp only [pyround]; norm_num) (by norm_num)

lemma f64_c114 : float64_round (0.114 : ℚ) = 8214565720323785 / 72057594037927936 :=
  float64_round_eq_val (e := -56) (m := 8214565720323785) (by norm_num) (by norm_num)
    (by norm_num) (by simp only [pyround]; norm_num) (by norm_num)

lemma pb_8_200_72 : perceived_brightness 8 200 72 = 9007199254740991 / 70368744177664 := by
  have hp1 : float64_round (5386305154335113 / 2251799813685248) = 5386305154335113 / 2251799813685248 :=
    float64_round_eq_val (e := -51) (m := 5386305154335113) (by norm_num) (by norm_num)
      (by norm_num)
      (by simp only [pyround]; norm_num [Int.even_iff, Int.odd_iff]) (by norm_num)
  have hp2 : float64_round (66090324531662025 / 562949953421312) = 8261290566457753 / 70368744177664 :=
    float64_round_eq_val (e := -46) (m := 8261290566457753) (by norm_num) (by norm_num)
      (by norm_num)
      (by simp only [pyround]; norm_num [Int.even_iff, Int.odd_iff]) (by norm_num)
  have hp3 : float64_round (73931091482914065 / 9007199254740992) = 4620693217682129 / 562949953421312 :=
    float64_round_eq_val (e := -49) (m := 4620693217682129) (by norm_num) (by norm_num)
      (by norm_num)
      (by simp only [pyround]; norm_num [Int.even_iff, Int.odd_iff]) (by norm_num)
  have hs1 : float64_round (269747603280983209 / 2251799813685248) = 8429612602530725 / 70368744177664 :=
    float64_round_eq_val (e := -46) (m := 8429612602530725) (by norm_num) (by norm_num)
      (by norm_num)
      (by simp only [pyround]; norm_num [Int.even_iff, Int.odd_iff]) (by norm_num)
  have hs2 : float64_round (72057594037927929 / 562949953421312) = 9007199254740991 / 70368744177664 :=
    float64_round_eq_val (e := -46) (m := 9007199254740991) (by norm_num) (by norm_num)
      (by norm_num)
      (by simp only [pyround]; norm_num [Int.even_iff, Int.odd_iff]) (by norm_num)
  unfold perceived_brightness
  rw [f64_c299, f64_c587, f64_c114]
  push_cast
  rw [show (8 : ℚ) * (5386305154335113 / 18014398509481984) = 5386305154335113 / 2251799813685248 from by norm_num, hp1]
  rw [show (200 : ℚ) * (2643612981266481 / 4503599627370496) = 66090324531662025 / 562949953421312 from by norm_num, hp2]
  rw [show (72 : ℚ) * (8214565720323785 / 72057594037927936) = 73931091482914065 / 9007199254740992 from by norm_num, hp3]
  rw [show (5386305154335113 / 2251799813685248 : ℚ) + (8261290566457753 / 70368744177664) = 269747603280983209 / 2251799813685248 from by norm_num, hs1]
  rw [show (8429612602530725 / 70368744177664 : ℚ) + (4620693217682129 / 562949953421312) = 72057594037927929 / 562949953421312 from by norm_num, hs2]

lemma pb_255 : perceived_brightness 255 255 255 = 255 := by
  have hp1 : float64_round (1373507814355453815 / 18014398509481984) = 5365264899825991 / 70368744177664 :=
    float64_round_eq_val (e := -46) (m := 5365264899825991) (by norm_num) (by norm_num)
      (by norm_num)
      (by simp only [pyround]; norm_num [Int.even_iff, Int.odd_iff]) (by norm_num)
  have hp2 : float64_round (674121310222952655 / 4503599627370496) = 2633286368058409 / 17592186044416 :=
    float64_round_eq_val (e := -45) (m := 5266572736116818) (by norm_num) (by norm_num)
      (by norm_num)
      (by simp only [pyround]; norm_num [Int.even_iff, Int.odd_iff]) (by norm_num)
  have hp3 : float64_round (2094714258682565175 / 72057594037927936) = 4091238786489385 / 140737488355328 :=
    float64_round_eq_val (e := -48) (m := 8182477572978770) (by norm_num) (by norm_num)
      (by norm_num)
      (by simp only [pyround]; norm_num [Int.even_iff, Int.odd_iff]) (by norm_num)
  have hs1 : float64_round (15898410372059627 / 70368744177664) = 3974602593014907 / 17592186044416 :=
    float64_round_eq_val (e := -45) (m := 7949205186029814) (by norm_num) (by norm_num)
      (by norm_num)
      (by simp only [pyround]; norm_num [Int.even_iff, Int.odd_iff]) (by norm_num)
  have hs2 : float64_round (35888059530608641 / 140737488355328) = 255 :=
    float64_round_eq_val (e := -45) (m := 8972014882652160) (by norm_num) (by norm_num)
      (by norm_num)
      (by simp only [pyround]; norm_num [Int.even_iff, Int.odd_iff]) (by norm_num)
  unfold perceived_brightness
  rw [f64_c299, f64_c587, f64_c114]
  push_cast
  rw [show (255 : ℚ) * (5386305154335113 / 18014398509481984) = 1373507814355453815 / 18014398509481984 from by norm_num, hp1]
  rw [show (255 : ℚ) * (2643612981266481 / 4503599627370496) = 674121310222952655 / 4503599627370496 from by norm_num, hp2]
  rw [show (255 : ℚ) * (8214565720323785 / 72057594037927936) = 2094714258682565175 / 72057594037927936 from by norm_num, hp3]
  rw [show (5365264899825991 / 70368744177664 : ℚ) + (2633286368058409 / 17592186044416) = 15898410372059627 / 70368744177664 from by norm_num, hs1]
  rw [show (3974602593014907 / 17592186044416 : ℚ) + (4091238786489385 / 140737488355328) = 35888059530608641 / 140737488355328 from by norm_num, hs2]


lemma getD_range_map {β : Type} (f : ℕ → β) (n i : ℕ) (d : β) (h : i < n) :
    ((List.range n).map f).getD i d = f i := by
  rw [List.getD_eq_getElem?_getD]
  simp [List.getElem?_map, List.getElem?_range h]

lemma pixel_visibility_spec (fa inv : Bool) (p : ℕ × ℕ × ℕ × ℕ) :
    (fa = true → (pixel_visibility fa inv p = true ↔ 0x80 ≤ p.2.2.2))
    ∧ (fa = false → inv = false →
        (pixel_visibility fa inv p = true ↔
          0x80 ≤ p.2.2.2 ∧ (0x80 : ℚ) ≤ perceived_brightness p.1 p.2.1 p.2.2.1))
    ∧ (fa = false → inv = true →
        (pixel_visibility fa inv p = true ↔
          0x80 ≤ p.2.2.2 ∧ perceived_brightness p.1 p.2.1 p.2.2.1 < (0x80 : ℚ)))
    ∧ (p.2.2.2 < 0x80 → pixel_visibility fa inv p = false) := by
  obtain ⟨r, g, b, a⟩ := p
  refine ⟨?_, ?_, ?_, ?_⟩
  · rintro rfl
    simp [pixel_visibility, ge_iff_le]
  · rintro rfl rfl
    simp [pixel_visibility, ge_iff_le]
  · rintro rfl rfl
    simp [pixel_visibility, ge_iff_le]
  · intro ha
    simp only [Prod.snd] at ha
    cases fa <;> cases inv <;>
      simp [pixel_visibility, ge_iff_le] <;> omega

/-- **C3 counterexample.** For the fully opaque pixel RGB (8, 200, 72) the
claim's rule says lit in the non-invert mode — alpha 255 ≥ 0x80 and the
exact brightness 0.299·8 + 0.587·200 + 0.114·72 = 128 ≥ 0x80 — and unlit
under invert; but `get_matrix` computes the brightness in float64, giving
127.99999999999999 < 0x80, so the pixel is unlit in the non-invert mode and
lit under invert: the opposite of the claim on both counts. -/
theorem c3_counterexample :
    get_matrix { fill_all := false, invert := false }
        { width := 1, height := 1, mode := "RGBA", data := [(8, 200, 72, 255)] } =
      Except.ok { height := 1, width := 1, rows := [[(8, 200, 72, 255, 0)]] } ∧
    get_matrix { fill_all := false, invert := true }
        { width := 1, height := 1, mode := "RGBA", data := [(8, 200, 72, 255)] } =
      Except.ok { height := 1, width := 1, rows := [[(8, 200, 72, 255, 1)]] } ∧
    0x80 ≤ 255 ∧
    (0x80 : ℚ) ≤ spec_perceived_brightness 8 200 72 ∧
    ¬ spec_perceived_brightness 8 200 72 < (0x80 : ℚ) := by
  refine ⟨?_, ?_, by norm_num, ?_, ?_⟩
  · simp only [get_matrix]
    norm_num [List.range_succ, pixel_visibility, pb_8_200_72]
  · simp only [get_matrix]
    norm_num [List.range_succ, pixel_visibility, pb_8_200_72]
  · unfold spec_perceived_brightness
    norm_num
  · unfold spec_perceived_brightness
    norm_num

/-- **C3 (amended).** For every RGBA image, `get_matrix` marks a pixel lit
as follows: with `fill_all` true, lit iff `alpha ≥ 0x80` (RGB irrelevant);
with `fill_all` false and `invert` false, lit iff `alpha ≥ 0x80` and the
float64-evaluated brightness `R * 0.299 + G * 0.587 + B * 0.114` (binary64
arithmetic exactly as numpy performs it) is `≥ 0x80`; with `fill_all` false
and `invert` true, lit iff `alpha ≥ 0x80` and that float64 brightness is
`< 0x80`.  In every mode a pixel with `alpha < 0x80` is never lit.  (The
claim's exact-real brightness rule fails at the float boundary — see the
counterexample.) -/
theorem c3_get_matrix_visibility (c : Image2ASCII) (img : PILImage)
    (M : PixelMatrix) (hmode : img.mode = "RGBA")
    (hlen : img.data.length = img.width * img.height)
    (hok : get_matrix c img = Except.ok M)
    (x y : ℕ) (hx : x < img.width) (hy : y < img.height) :
    matrixEntry M y x =
      ((img.data.getD (y * img.width + x) (0, 0, 0, 0)).1,
        (img.data.getD (y * img.width + x) (0, 0, 0, 0)).2.1,
        (img.data.getD (y * img.width + x) (0, 0, 0, 0)).2.2.1,
        (img.data.getD (y * img.width + x) (0, 0, 0, 0)).2.2.2,
        if pixel_visibility c.fill_all c.invert
            (img.data.getD (y * img.width + x) (0, 0, 0, 0)) then 1 else 0)
    ∧ (c.fill_all = true →
        (pixel_visibility c.fill_all c.invert
            (img.data.getD (y * img.width + x) (0, 0, 0, 0)) = true ↔
          0x80 ≤ (img.data.getD (y * img.width + x) (0, 0, 0, 0)).2.2.2))
    ∧ (c.fill_all = false → c.invert = false →
        (pixel_visibility c.fill_all c.invert
            (img.data.getD (y * img.width + x) (0, 0, 0, 0)) = true ↔
          0x80 ≤ (img.data.getD (y * img.width + x) (0, 0, 0, 0)).2.2.2 ∧
          (0x80 : ℚ) ≤ perceived_brightness
            (img.data.getD (y * img.width + x) (0, 0, 0, 0)).1
            (img.data.getD (y * img.width + x) (0, 0, 0, 0)).2.1
            (img.data.getD (y * img.width + x) (0, 0, 0, 0)).2.2.1))
    ∧ (c.fill_all = false → c.invert = true →
        (pixel_visibility c.fill_all c.invert
            (img.data.getD (y * img.width + x) (0, 0, 0, 0)) = true ↔
          0x80 ≤ (img.data.getD (y * img.width + x) (0, 0, 0, 0)).2.2.2 ∧
          perceived_brightness
            (img.data.getD (y * img.width + x) (0, 0, 0, 0)).1
            (img.data.getD (y * img.width + x) (0, 0, 0, 0)).2.1
            (img.data.getD (y * img.width + x) (0, 0, 0, 0)).2.2.1 < (0x80 : ℚ)))
    ∧ ((img.data.getD (y * img.width + x) (0, 0, 0, 0)).2.2.2 < 0x80 →
        pixel_visibility c.fill_all c.invert
          (img.data.getD (y * img.width + x) (0, 0, 0, 0)) = false) := by
  have hM : M = ⟨img.height, img.width,
      (List.range img.height).map (fun y =>
        (List.range img.width).map (fun x =>
          let p := img.data.getD (y * img.width + x) (0, 0, 0, 0)
          (p.1, p.2.1, p.2.2.1, p.2.2.2,
            if pixel_visibility c.fill_all c.invert p then 1 else 0)))⟩ := by
    unfold get_matrix at hok
    rw [if_neg (by omega), if_neg (by simp [hmode]), if_neg (by simp [hlen])] at hok
    injection hok with h2
    exact h2.symm
  have hspec := pixel_visibility_spec c.fill_all c.invert
    (img.data.getD (y * img.width + x) (0, 0, 0, 0))
  refine ⟨?_, hspec.1, hspec.2.1, hspec.2.2.1, hspec.2.2.2⟩
  rw [hM]
  unfold matrixEntry
  simp only
  rw [getD_range_map _ _ _ _ hy, getD_range_map _ _ _ _ hx]

/-- Witness for C3 at `c3Image` with the default configuration (the pixel is
unlit: alpha 40 < 0x80). -/
theorem c3_witness :
    matrixEntry { height := 1, width := 1, rows := [[(10, 20, 30, 40, 0)]] } 0 0 =
      ((c3Image.data.getD 0 (0, 0, 0, 0)).1,
        (c3Image.data.getD 0 (0, 0, 0, 0)).2.1,
        (c3Image.data.getD 0 (0, 0, 0, 0)).2.2.1,
        (c3Image.data.getD 0 (0, 0, 0, 0)).2.2.2,
        if pixel_visibility false false (c3Image.data.getD 0 (0, 0, 0, 0)) then 1 else 0)
    ∧ ((c3Image.data.getD 0 (0, 0, 0, 0)).2.2.2 < 0x80 →
        pixel_visibility false false (c3Image.data.getD 0 (0, 0, 0, 0)) = false) := by
  have h := c3_get_matrix_visibility { } c3Image
    { height := 1, width := 1, rows := [[(10, 20, 30, 40, 0)]] } rfl rfl
    (by
      simp only [get_matrix, c3Image]
      norm_num [List.range_succ, pixel_visibility])
    0 0 (by norm_num [c3Image]) (by norm_num [c3Image])
  refine ⟨?_, ?_⟩
  · have := h.1
    simpa [c3Image] using this
  · intro ha
    have := h.2.2.2.2
    simpa [c3Image] using this

/-- **C9.** For every image whose width or height is zero, `get_matrix`
returns the empty `(0, 0, 5)`-shaped array and does not fail — regardless of
the image's mode or pixel data, since the early return precedes the RGBA
assertion and the per-pixel computation. -/
theorem c9_get_matrix_zero_size (c : Image2ASCII) (img : PILImage)
    (h : img.width = 0 ∨ img.height = 0) :
    get_matrix c img = Except.ok { height := 0, width := 0, rows := [] } := by
  unfold get_matrix
  rw [if_pos h]

/-- Witness for C9: a width-zero image in a non-RGBA mode with inconsistent
pixel data still yields the empty array. -/
theorem c9_witness :
    get_matrix { } { width := 0, height := 5, mode := "L", data := [(1, 2, 3, 4)] } =
      Except.ok { height := 0, width := 0, rows := [] } :=
  c9_get_matrix_zero_size { } _ (Or.inl rfl)

/-- **C7 counterexample.** Assigning a value equal to the stored one through
a setter (here `invert = False` on a state whose `invert` is already
`False`) does NOT invalidate the memoized output: the setters reset only
when the value differs, so the claim that every assignment through a setter
sets the cached output to `None` fails. -/
theorem c7_counterexample :
    (applySetting c7State (Setting.invert false)).output ≠ none := by
  simp [applySetting, c7State]

/-- **C7 (amended).** Every setter assignment that changes the stored value
invalidates the memoized output (sets it to `None`); an assignment of the
unchanged value leaves the state — cache included — untouched; and
rendering with a populated cache returns the cached output and the unchanged
state, independently of the computation function (i.e. without
recomputation). -/
theorem c7_invalidation_and_caching :
    (∀ (st : Image2ASCII) (s : Setting), settingChanges st s →
      (applySetting st s).output = none)
    ∧ (∀ (st : Image2ASCII) (s : Setting), ¬ settingChanges st s →
      applySetting st s = st)
    ∧ (∀ (compute₁ compute₂ : Image2ASCII → ℕ) (st : Image2ASCII) (o : ℕ),
      st.output = some o →
      render compute₁ st = (o, st) ∧ render compute₁ st = render compute₂ st) := by
  refine ⟨?_, ?_, ?_⟩
  · intro st s h
    cases s <;>
    · simp only [applySetting, settingChanges] at h ⊢
      rw [if_pos h]
      rfl
  · intro st s h
    cases s <;>
    · simp only [applySetting, settingChanges] at h ⊢
      rw [if_neg h]
  · intro compute₁ compute₂ st o h
    constructor <;> simp [render, h]

/-- Witness for the amended C7: a changing assignment clears the cache, and
`render` returns the cached value for two different computation functions. -/
theorem c7_witness :
    (applySetting c7CachedState (Setting.invert true)).output = none ∧
    render (fun _ => 7) c7CachedState = (5, c7CachedState) ∧
    render (fun _ => 7) c7CachedState = render (fun _ => 9) c7CachedState := by
  refine ⟨?_, ?_, ?_⟩
  · exact c7_invalidation_and_caching.1 c7CachedState (Setting.invert true)
      (by simp [settingChanges, c7CachedState])
  · exact (c7_invalidation_and_caching.2.2 (fun _ => 7) (fun _ => 9)
      c7CachedState 5 rfl).1
  · exact (c7_invalidation_and_caching.2.2 (fun _ => 7) (fun _ => 9)
      c7CachedState 5 rfl).2

lemma loopFirst_mem {p : ℕ → Bool} {l : List ℕ} {v : ℕ}
    (h : loopFirst p l = some v) : v ∈ l := by
  unfold loopFirst at h
  cases hf : l.find? p with
  | some w =>
    rw [hf] at h
    injection h with h2
    subst h2
    exact List.mem_of_find?_eq_some hf
  | none =>
    rw [hf] at h
    obtain ⟨hne, heq⟩ := List.mem_getLast?_eq_getLast (Option.mem_def.mpr h)
    rw [heq]
    exact List.getLast_mem hne

lemma loopFirst_isSome {p : ℕ → Bool} {l : List ℕ} (h : l ≠ []) :
    ∃ v, loopFirst p l = some v := by
  unfold loopFirst
  cases hf : l.find? p with
  | some w => exact ⟨w, rfl⟩
  | none =>
    have := List.getLast?_isSome.mpr h
    rcases Option.isSome_iff_exists.mp this with ⟨v, hv⟩
    exact ⟨v, hv⟩

/-- **C10.** For every visibility matrix with positive width and height,
`get_crop_box` returns a non-empty box: `0 ≤ left < right ≤ width` and
`0 ≤ upper < lower ≤ height` always hold (the `0 ≤` parts being automatic
for naturals), including when no pixel is visible — the box always encloses
at least one pixel. -/
theorem c10_crop_box_nonempty (M : PixelMatrix)
    (hw : 0 < M.width) (hh : 0 < M.height) :
    ∃ box, get_crop_box M = some box ∧
      box.left < box.right ∧ box.right ≤ M.width ∧
      box.upper < box.lower ∧ box.lower ≤ M.height := by
  obtain ⟨left, hleft⟩ := loopFirst_isSome (p := col_any_visible M)
    (l := List.range M.width) (by simp; omega)
  have hleftlt : left < M.width := List.mem_range.mp (loopFirst_mem hleft)
  obtain ⟨upper, hupper⟩ := loopFirst_isSome (p := row_any_visible M)
    (l := List.range M.height) (by simp; omega)
  have hupperlt : upper < M.height := List.mem_range.mp (loopFirst_mem hupper)
  obtain ⟨right, hright⟩ := loopFirst_isSome
    (p := fun r => col_any_visible M (r - 1))
    (l := (List.range' (left + 1) (M.width - left)).reverse)
    (by
      intro hnil
      have := congrArg List.length hnil
      simp [List.length_range'] at this
      omega)
  have hrightmem := loopFirst_mem hright
  rw [List.mem_reverse, List.mem_range'] at hrightmem
  obtain ⟨i, hir, rfl⟩ := hrightmem
  obtain ⟨lower, hlower⟩ := loopFirst_isSome
    (p := fun r => row_any_visible M (r - 1))
    (l := (List.range' (upper + 1) (M.height - upper)).reverse)
    (by
      intro hnil
      have := congrArg List.length hnil
      simp [List.length_range'] at this
      omega)
  have hlowermem := loopFirst_mem hlower
  rw [List.mem_reverse, List.mem_range'] at hlowermem
  obtain ⟨j, hjr, rfl⟩ := hlowermem
  refine ⟨⟨left, upper, left + 1 + 1 * i, upper + 1 + 1 * j⟩, ?_, ?_, ?_, ?_, ?_⟩
  · simp only [get_crop_box, hleft, hupper, hright, hlower]
  all_goals
    dsimp only
    omega

/-- Witness for C10: a 1×1 matrix with no visible pixel still yields the
non-empty box `(0, 0, 1, 1)`. -/
theorem c10_witness :
    ∃ box, get_crop_box { height := 1, width := 1, rows := [[(0, 0, 0, 0, 0)]] } = some box ∧
      box.left < box.right ∧
      box.right ≤ PixelMatrix.width { height := 1, width := 1, rows := [[(0, 0, 0, 0, 0)]] } ∧
      box.upper < box.lower ∧
      box.lower ≤ PixelMatrix.height { height := 1, width := 1, rows := [[(0, 0, 0, 0, 0)]] } :=
  c10_crop_box_nonempty _ (by norm_num) (by norm_num)

/-- **C8 (planning and sampling part).**  With the C8 configuration a 2×2
image is resized to 1×1, the section size is (1, 1) — a single section
covering the whole image — and sampling the all-white opaque pixel marks it
lit.  (The glyph-selection step itself is unreachable in this source tree:
`init_shapes` passes `width`/`height` keywords to `EmptyShape`/`FilledShape`
whose inherited `BaseShape.__init__` accepts only `char`, so `render` raises
`TypeError` before any glyph is built; see the C8 result entry.) -/
theorem c8_section_planning :
    do_resize c8Config 2 2 = { width := 1, height := 1, resized := true, padded := false } ∧
    get_section_size c8Config 1 = (1, 1) ∧
    get_matrix c8Config c8Resized =
      Except.ok { height := 1, width := 1, rows := [[(255, 255, 255, 255, 1)]] } := by
  refine ⟨?_, ?_, ?_⟩
  · simp only [do_resize, plan_end_width, round_to_multiple, resized_dims,
      pad_height, get_section_size, pyround, pytrunc, c8Config]
    norm_num
  · simp only [get_section_size, pytrunc, c8Config]
    norm_num
  · simp only [get_matrix, c8Resized, c8Config]
    norm_num [List.range_succ, pixel_visibility, pb_255]

end Image2ascii
